import Mathlib

/-!
Verification of the Smart Resume / Job Fit Analyzer scoring core.

This file gives a shallow embedding of the deterministic scoring pipeline of
the repository (backend/rules/engine.py, backend/rules/matchers.py,
backend/taxonomy/normalizer.py, backend/parsers/section_detector.py) and
proves the specified properties about it.

Python float arithmetic is modelled with exact rationals, Python ints with
Int/Nat.  The skill normalizer and the rapidfuzz string-similarity scorer are
parameters of the matcher/engine definitions (the taxonomy and scoring
configuration are data files, so the engine is modelled for an arbitrary
configuration), except where a claim is about the normalizer itself, which is
modelled in full further below.
-/

namespace SmartResume

/-- Skill match classification (api/schemas.py MatchType). -/
inductive MatchType where
  | matched
  | partialMatch
  | missing
deriving DecidableEq, Repr

/-- Confidence tier (api/schemas.py ConfidenceLevel). -/
inductive ConfidenceLevel where
  | high
  | medium
  | low
deriving DecidableEq, Repr

/-- Skill priority from the job description (api/schemas.py SkillPriority). -/
inductive SkillPriority where
  | required
  | optional
deriving DecidableEq, Repr

/-- Education entry fields consumed by the rule engine (api/schemas.py). -/
structure EducationEntry where
  institution : String
  degree : String
  field_of_study : Option String
  source_text : String
deriving DecidableEq, Repr

/-- Experience entry fields consumed by the rule engine (api/schemas.py). -/
structure ExperienceEntry where
  company : String
  title : String
  description : String
  responsibilities : List String
  source_text : String
deriving DecidableEq, Repr

/-- Extracted resume skill (api/schemas.py ExtractedSkill), fields used by the
matcher. -/
structure ExtractedSkill where
  name : String
  canonical_name : String
  source_text : String
  line_number : Option Nat
deriving DecidableEq, Repr

/-- Parsed resume (api/schemas.py ParsedResume), fields used by the engine. -/
structure ParsedResume where
  raw_text : String
  education : List EducationEntry
  experience : List ExperienceEntry
  skills : List ExtractedSkill
deriving DecidableEq, Repr

/-- Parsed job description (api/schemas.py ParsedJobDescription), fields used
by the engine. -/
structure ParsedJobDescription where
  raw_text : String
  required_skills : List String
  optional_skills : List String
  education_requirements : Option String
deriving DecidableEq, Repr

/-- One skill-match record (api/schemas.py SkillMatch).  match_score is the
0..1 score. -/
structure SkillMatch where
  skill_name : String
  canonical_name : String
  match_type : MatchType
  confidence : ConfidenceLevel
  jd_priority : SkillPriority
  evidence : Option String
  line_number : Option Nat
  match_score : ℚ
deriving DecidableEq, Repr

/-- Entries of the penalties_applied log of engine.py, abstracted from the
formatted strings to their data content. -/
inductive PenaltyNote where
  | missingSkills (count : Nat) (amount : ℚ)
  | capped (cap : ℚ) (minimumRequired : ℚ)
deriving DecidableEq, Repr

/-- The stats sub-dictionary built by match_skills (rules/matchers.py). -/
structure MatchStats where
  matched_count : Nat
  partial_count : Nat
  missing_count : Nat
  required_matched : Nat
  required_total : Nat
  optional_matched : Nat
  optional_total : Nat
deriving DecidableEq, Repr

/-- The results dictionary built by match_skills (rules/matchers.py). -/
structure MatchResults where
  matchesL : List SkillMatch
  matched_required : List String
  matched_optional : List String
  partial_required : List String
  partial_optional : List String
  missing_required : List String
  missing_optional : List String
  stats : MatchStats
deriving DecidableEq, Repr

/-- One experience-signal category of the scoring config
(experience_signals.leadership / scale / technical_depth): the predicate
holds when some configured regex matches the text. -/
structure SignalConfig where
  hit : String → Bool
  weight : ℚ

/-- The scoring configuration of rules/config.yaml as loaded by RuleEngine.
The config file itself is not part of the sources, so every evaluation
theorem is stated for an arbitrary configuration. -/
structure EngineConfig where
  w_required : ℚ
  w_optional : ℚ
  w_experience : ℚ
  w_education : ℚ
  full_match_threshold : ℚ
  partial_match_threshold : ℚ
  missing_required_skill : ℚ
  max_penalty : ℚ
  bound_min : ℚ
  bound_max : ℚ
  minimum_required_matched : ℚ
  below_minimum_cap : ℚ
  leadership : Option SignalConfig
  scale : Option SignalConfig
  technical_depth : Option SignalConfig
  degree_levels : List (String × ℚ)
  field_match_bonus : ℚ

/-- Python round(): round half to even, to an integer. -/
def pyRound (q : ℚ) : ℤ :=
  if q - ⌊q⌋ < 1/2 then ⌊q⌋
  else if 1/2 < q - ⌊q⌋ then ⌊q⌋ + 1
  else if ⌊q⌋ % 2 = 0 then ⌊q⌋ else ⌊q⌋ + 1

theorem pyRound_eq_floor_or (q : ℚ) : pyRound q = ⌊q⌋ ∨ pyRound q = ⌊q⌋ + 1 := by
  unfold pyRound
  split_ifs <;> simp

theorem floor_le_pyRound (q : ℚ) : ⌊q⌋ ≤ pyRound q := by
  rcases pyRound_eq_floor_or q with h | h <;> omega

theorem le_pyRound_of_le (n : ℤ) (q : ℚ) (h : (n : ℚ) ≤ q) : n ≤ pyRound q := by
  have h1 : n ≤ ⌊q⌋ := Int.le_floor.mpr h
  have h2 := floor_le_pyRound q
  omega

theorem pyRound_eq_add_one_imp (q : ℚ) (h : pyRound q = ⌊q⌋ + 1) :
    1/2 ≤ q - ⌊q⌋ := by
  by_contra hlt
  push_neg at hlt
  unfold pyRound at h
  rw [if_pos hlt] at h
  omega

theorem pyRound_le_of_le (n : ℤ) (q : ℚ) (h : q ≤ (n : ℚ)) : pyRound q ≤ n := by
  have hf : ⌊q⌋ ≤ n := by
    have := Int.floor_le_floor (α := ℚ) h
    simpa using this
  rcases pyRound_eq_floor_or q with h1 | h1
  · omega
  · have hhalf := pyRound_eq_add_one_imp q h1
    have hflt : (⌊q⌋ : ℚ) < q := by
      have := Int.floor_le q
      linarith
    have : (⌊q⌋ : ℚ) < (n : ℚ) := lt_of_lt_of_le hflt h
    have : ⌊q⌋ < n := by exact_mod_cast this
    omega

theorem pyRound_intCast (n : ℤ) : pyRound ((n : ℤ) : ℚ) = n := by
  unfold pyRound
  rw [Int.floor_intCast]
  norm_num

/-- Python str.lower(): character-wise lowercasing (computable model of
String.toLower). -/
def pyLower (s : String) : String := ⟨s.data.map Char.toLower⟩

/-- Python str.strip(): drop leading and trailing whitespace. -/
def pyStrip (s : String) : String :=
  ⟨((s.data.dropWhile Char.isWhitespace).reverse.dropWhile
      Char.isWhitespace).reverse⟩

/-! ## Skill matcher (rules/matchers.py) -/

/-- Internal match outcome of _find_skill_match ("full" / "partial" / "none"). -/
inductive Outcome where
  | full
  | partialHit
  | miss
deriving DecidableEq, Repr

/-- Result dictionary of _find_skill_match. -/
structure FindResult where
  outcome : Outcome
  score : ℚ
  evidence : Option String
  line_number : Option Nat
deriving DecidableEq, Repr

/-- Python dict assignment on an insertion-ordered association list:
overwriting an existing key keeps its position. -/
def dictInsert (m : List (String × ExtractedSkill)) (k : String)
    (v : ExtractedSkill) : List (String × ExtractedSkill) :=
  match m with
  | [] => [(k, v)]
  | (k0, v0) :: rest =>
      if k0 = k then (k, v) :: rest else (k0, v0) :: dictInsert rest k v

/-- Python dict lookup on the association list. -/
def lookupDict (m : List (String × ExtractedSkill)) (k : String) :
    Option ExtractedSkill :=
  match m with
  | [] => none
  | (k0, v0) :: rest => if k0 = k then some v0 else lookupDict rest k

/-- resume_skill_map construction in match_skills: normalize each resume
skill name (falling back to canonical_name when the name is empty) and key
the map by the lower-cased canonical form. -/
def buildResumeSkillMap (nz : String → String) (skills : List ExtractedSkill) :
    List (String × ExtractedSkill) :=
  skills.foldl
    (fun m sk =>
      let nm := if sk.name = "" then sk.canonical_name else sk.name
      dictInsert m (pyLower (nz nm)) sk)
    []

/-- _find_skill_match: exact canonical-key hit gives a full match with score
100; otherwise fuzzy-compare against every resume canonical key, keeping the
strictly best score seen (the first maximum wins). -/
def find_skill_match (fz : String → String → ℚ) (jd_canonical : String)
    (m : List (String × ExtractedSkill)) (fullT partialT : ℚ) : FindResult :=
  let jdLower := pyLower jd_canonical
  match lookupDict m jdLower with
  | some sk => ⟨.full, 100, some sk.source_text, sk.line_number⟩
  | none =>
      m.foldl
        (fun best kv =>
          let score := fz jdLower kv.1
          if best.score < score then
            { outcome :=
                if fullT ≤ score then .full
                else if partialT ≤ score then .partialHit
                else .miss
              score := score
              evidence := some kv.2.source_text
              line_number := kv.2.line_number }
          else best)
        ⟨.miss, 0, none, none⟩

/-- _score_to_confidence in rules/matchers.py. -/
def score_to_confidence (score : ℚ) : ConfidenceLevel :=
  if 90 ≤ score then .high
  else if 70 ≤ score then .medium
  else .low

/-- The SkillMatch record match_skills appends for one JD skill. -/
def mkSkillMatch (nz : String → String) (fz : String → String → ℚ)
    (m : List (String × ExtractedSkill)) (fullT partialT : ℚ)
    (prio : SkillPriority) (jd_skill : String) : SkillMatch :=
  let jd_canonical := nz jd_skill
  let r := find_skill_match fz jd_canonical m fullT partialT
  match r.outcome with
  | .full =>
      ⟨jd_skill, jd_canonical, .matched, score_to_confidence r.score, prio,
        r.evidence, r.line_number, r.score / 100⟩
  | .partialHit =>
      ⟨jd_skill, jd_canonical, .partialMatch, score_to_confidence r.score, prio,
        r.evidence, r.line_number, r.score / 100⟩
  | .miss =>
      ⟨jd_skill, jd_canonical, .missing, .low, prio, none, none, 0⟩

/-- Match outcome of one JD skill against the resume skill map. -/
def outcomeOf (nz : String → String) (fz : String → String → ℚ)
    (m : List (String × ExtractedSkill)) (fullT partialT : ℚ)
    (jd_skill : String) : Outcome :=
  (find_skill_match fz (nz jd_skill) m fullT partialT).outcome

/-- Empty results dictionary with the totals preset, as in match_skills. -/
def initResults (nreq nopt : Nat) : MatchResults :=
  ⟨[], [], [], [], [], [], [], ⟨0, 0, 0, 0, nreq, 0, nopt⟩⟩

/-- Loop body of the required-skills pass of match_skills. -/
def stepRequired (nz : String → String) (fz : String → String → ℚ)
    (m : List (String × ExtractedSkill)) (fullT partialT : ℚ)
    (acc : MatchResults) (jd_skill : String) : MatchResults :=
  let sm := mkSkillMatch nz fz m fullT partialT .required jd_skill
  match outcomeOf nz fz m fullT partialT jd_skill with
  | .full =>
      { acc with
        matchesL := acc.matchesL ++ [sm]
        matched_required := acc.matched_required ++ [jd_skill]
        stats := { acc.stats with
          matched_count := acc.stats.matched_count + 1
          required_matched := acc.stats.required_matched + 1 } }
  | .partialHit =>
      { acc with
        matchesL := acc.matchesL ++ [sm]
        partial_required := acc.partial_required ++ [jd_skill]
        stats := { acc.stats with
          partial_count := acc.stats.partial_count + 1 } }
  | .miss =>
      { acc with
        matchesL := acc.matchesL ++ [sm]
        missing_required := acc.missing_required ++ [jd_skill]
        stats := { acc.stats with
          missing_count := acc.stats.missing_count + 1 } }

/-- Loop body of the optional-skills pass of match_skills. -/
def stepOptional (nz : String → String) (fz : String → String → ℚ)
    (m : List (String × ExtractedSkill)) (fullT partialT : ℚ)
    (acc : MatchResults) (jd_skill : String) : MatchResults :=
  let sm := mkSkillMatch nz fz m fullT partialT .optional jd_skill
  match outcomeOf nz fz m fullT partialT jd_skill with
  | .full =>
      { acc with
        matchesL := acc.matchesL ++ [sm]
        matched_optional := acc.matched_optional ++ [jd_skill]
        stats := { acc.stats with
          matched_count := acc.stats.matched_count + 1
          optional_matched := acc.stats.optional_matched + 1 } }
  | .partialHit =>
      { acc with
        matchesL := acc.matchesL ++ [sm]
        partial_optional := acc.partial_optional ++ [jd_skill]
        stats := { acc.stats with
          partial_count := acc.stats.partial_count + 1 } }
  | .miss =>
      { acc with
        matchesL := acc.matchesL ++ [sm]
        missing_optional := acc.missing_optional ++ [jd_skill]
        stats := { acc.stats with
          missing_count := acc.stats.missing_count + 1 } }

/-- match_skills (rules/matchers.py): required skills first, then optional. -/
def match_skills (nz : String → String) (fz : String → String → ℚ)
    (resume_skills : List ExtractedSkill)
    (jd_required jd_optional : List String) (fullT partialT : ℚ) :
    MatchResults :=
  let m := buildResumeSkillMap nz resume_skills
  let r1 := jd_required.foldl (stepRequired nz fz m fullT partialT)
    (initResults jd_required.length jd_optional.length)
  jd_optional.foldl (stepOptional nz fz m fullT partialT) r1

/-! ## Rule engine (rules/engine.py) -/

/-- _calculate_required_skills_score. -/
def calculate_required_skills_score (r : MatchResults) : ℚ :=
  if r.stats.required_total = 0 then 100
  else
    min 100
      (((r.stats.required_matched : ℚ) * 100 +
        (r.partial_required.length : ℚ) * 50) / (r.stats.required_total : ℚ))

/-- _calculate_optional_skills_score. -/
def calculate_optional_skills_score (r : MatchResults) : ℚ :=
  if r.stats.optional_total = 0 then 100
  else
    min 100
      (((r.stats.optional_matched : ℚ) * 100 +
        (r.partial_optional.length : ℚ) * 50) / (r.stats.optional_total : ℚ))

/-- The text over which experience-signal regexes are searched:
description.lower() concatenated with " ".join(responsibilities).lower(). -/
def expText (e : ExperienceEntry) : String :=
  pyLower e.description ++ pyLower (String.intercalate " " e.responsibilities)

/-- Bonus contributed by one signal category for one entry: mult * weight if
the category is configured and some pattern matches, else 0. -/
def signalBonus (sig : Option SignalConfig) (mult : ℚ) (t : String) : ℚ :=
  match sig with
  | none => 0
  | some s => if s.hit t then mult * s.weight else 0

/-- _calculate_experience_score: base 50, per-entry additive bonuses, capped
at 100; returns the neutral 50 when there are no experience entries. -/
def calculate_experience_score (cfg : EngineConfig) (resume : ParsedResume) :
    ℚ :=
  if resume.experience = [] then 50
  else
    min 100
      (resume.experience.foldl
        (fun sc e =>
          let t := expText e
          sc + signalBonus cfg.leadership 10 t + signalBonus cfg.scale 10 t +
            signalBonus cfg.technical_depth 8 t)
        50)

/-- Python substring containment (the `in` operator on strings). -/
def strContainsSub (hay needle : String) : Bool :=
  decide (needle.toList <:+: hay.toList)

/-- One iteration of the degree-level loop of _calculate_education_score:
the first configured degree keyword contained in the lowered degree text
wins, and the running maximum is updated with its score. -/
def degreeStep (levels : List (String × ℚ)) (m : ℚ) (e : EducationEntry) : ℚ :=
  match levels.find? (fun kv => strContainsSub (pyLower e.degree) kv.1) with
  | some kv => max m kv.2
  | none => m

/-- Running maximum of configured degree-level scores over all education
entries, started at the 50-point neutral baseline. -/
def degreeMaxScore (levels : List (String × ℚ))
    (edus : List EducationEntry) : ℚ :=
  edus.foldl (degreeStep levels) 50

/-- Python str.split() on whitespace, dropping empty pieces. -/
def splitWords (s : String) : List String :=
  (s.split Char.isWhitespace).filter (fun w => w ≠ "")

/-- Field-of-study matching loop: some education entry has a non-empty
field_of_study sharing a word with the JD education requirement text. -/
def fieldMatchBool (jd_edu_lower : String) (edus : List EducationEntry) :
    Bool :=
  edus.any fun e =>
    match e.field_of_study with
    | none => false
    | some f =>
        if f = "" then false
        else (splitWords (pyLower f)).any fun w => strContainsSub jd_edu_lower w

/-- The one-time field-of-study bonus of _calculate_education_score. -/
def educationFieldBonus (cfg : EngineConfig) (resume : ParsedResume)
    (jd : ParsedJobDescription) : ℚ :=
  match jd.education_requirements with
  | none => 0
  | some req =>
      if req = "" then 0
      else if fieldMatchBool (pyLower req) resume.education then
        cfg.field_match_bonus
      else 0

/-- _calculate_education_score. -/
def calculate_education_score (cfg : EngineConfig) (resume : ParsedResume)
    (jd : ParsedJobDescription) : ℚ :=
  if resume.education = [] then 50
  else
    min 100
      (degreeMaxScore cfg.degree_levels resume.education +
        educationFieldBonus cfg resume jd)

/-- Step 4 of evaluate: penalty for missing required skills, floored by
max() against the configured (negative) max_penalty. -/
def penaltyStep (cfg : EngineConfig) (missingCount : Nat) :
    ℚ × List PenaltyNote :=
  if 0 < missingCount then
    let p := max ((missingCount : ℚ) * cfg.missing_required_skill)
      cfg.max_penalty
    (p, [.missingSkills missingCount p])
  else (0, [])

/-- required_matched / required_total, as computed in step 5 of evaluate. -/
def requiredFraction (r : MatchResults) : ℚ :=
  (r.stats.required_matched : ℚ) / (r.stats.required_total : ℚ)

/-- Step 5 of evaluate: hard floor enforcement.  The score is clamped to the
cap, and a note logged, only when it actually exceeds the cap. -/
def enforcementStep (cfg : EngineConfig) (r : MatchResults) (w : ℚ) :
    ℚ × List PenaltyNote :=
  if 0 < r.stats.required_total then
    if requiredFraction r < cfg.minimum_required_matched then
      if cfg.below_minimum_cap < w then
        (cfg.below_minimum_cap,
          [.capped cfg.below_minimum_cap cfg.minimum_required_matched])
      else (w, [])
    else (w, [])
  else (w, [])

/-- _bound_score: clamp to the configured bounds and round. -/
def bound_score (cfg : EngineConfig) (score : ℚ) : ℤ :=
  pyRound (max cfg.bound_min (min cfg.bound_max score))

/-- Step 3 of evaluate: the weighted sum of the four component scores. -/
def weightedBase (cfg : EngineConfig) (r : MatchResults)
    (resume : ParsedResume) (jd : ParsedJobDescription) : ℚ :=
  calculate_required_skills_score r * cfg.w_required +
    calculate_optional_skills_score r * cfg.w_optional +
    calculate_experience_score cfg resume * cfg.w_experience +
    calculate_education_score cfg resume jd * cfg.w_education

/-- Steps 3-5 of evaluate: weighted sum, penalties, floor enforcement.
Returns the pre-bound score and the penalties log. -/
def preBoundScore (cfg : EngineConfig) (r : MatchResults)
    (resume : ParsedResume) (jd : ParsedJobDescription) :
    ℚ × List PenaltyNote :=
  let base := weightedBase cfg r resume jd
  let pen := penaltyStep cfg r.missing_required.length
  let enf := enforcementStep cfg r (base + pen.1)
  (enf.1, pen.2 ++ enf.2)

/-- Confidence-level determination in evaluate (an if / elif / else chain). -/
def confidenceOf (resume : ParsedResume) (jd : ParsedJobDescription) :
    ConfidenceLevel :=
  if 0 < resume.experience.length ∧ 5 < resume.skills.length ∧
      0 < jd.required_skills.length then .high
  else if resume.skills.length < 3 then .low
  else .medium

/-- Score breakdown (api/schemas.py ScoreBreakdown), penalty log abstracted
to PenaltyNote values. -/
structure ScoreBreakdown where
  required_skills_score : ℚ
  optional_skills_score : ℚ
  experience_depth_score : ℚ
  education_match_score : ℚ
  penalties_applied : List PenaltyNote
deriving DecidableEq, Repr

/-- Evaluation result (api/schemas.py EvaluationResult), fields computed by
the scoring pipeline. -/
structure EvaluationResult where
  job_fit_score : ℤ
  confidence_level : ConfidenceLevel
  score_breakdown : ScoreBreakdown
  skill_matches : List SkillMatch
  matched_count : Nat
  partial_count : Nat
  missing_count : Nat
deriving DecidableEq, Repr

/-- Step 1 of RuleEngine.evaluate: skill matching with the configured
thresholds. -/
def engineMatch (cfg : EngineConfig) (nz : String → String)
    (fz : String → String → ℚ) (resume : ParsedResume)
    (jd : ParsedJobDescription) : MatchResults :=
  match_skills nz fz resume.skills jd.required_skills jd.optional_skills
    cfg.full_match_threshold cfg.partial_match_threshold

/-- RuleEngine.evaluate (rules/engine.py), for an arbitrary configuration,
normalizer nz and fuzzy scorer fz. -/
def evaluate (cfg : EngineConfig) (nz : String → String)
    (fz : String → String → ℚ) (resume : ParsedResume)
    (jd : ParsedJobDescription) : EvaluationResult :=
  let r := engineMatch cfg nz fz resume jd
  let wlog := preBoundScore cfg r resume jd
  { job_fit_score := bound_score cfg wlog.1
    confidence_level := confidenceOf resume jd
    score_breakdown :=
      ⟨calculate_required_skills_score r, calculate_optional_skills_score r,
        calculate_experience_score cfg resume,
        calculate_education_score cfg resume jd, wlog.2⟩
    skill_matches := r.matchesL
    matched_count := r.stats.matched_count
    partial_count := r.stats.partial_count
    missing_count := r.stats.missing_count }

/-! ## Characterization of the match_skills folds -/

/-- Boolean test that a JD skill gets a given match outcome. -/
def outP (nz : String → String) (fz : String → String → ℚ)
    (m : List (String × ExtractedSkill)) (fT pT : ℚ) (o : Outcome)
    (s : String) : Bool :=
  decide (outcomeOf nz fz m fT pT s = o)

theorem stepRequired_fields (nz : String → String) (fz : String → String → ℚ)
    (m : List (String × ExtractedSkill)) (fT pT : ℚ) (acc : MatchResults)
    (s : String) :
    (stepRequired nz fz m fT pT acc s).matchesL =
      acc.matchesL ++ [mkSkillMatch nz fz m fT pT .required s] ∧
    (stepRequired nz fz m fT pT acc s).matched_required =
      acc.matched_required ++
        (if outP nz fz m fT pT .full s then [s] else []) ∧
    (stepRequired nz fz m fT pT acc s).partial_required =
      acc.partial_required ++
        (if outP nz fz m fT pT .partialHit s then [s] else []) ∧
    (stepRequired nz fz m fT pT acc s).missing_required =
      acc.missing_required ++
        (if outP nz fz m fT pT .miss s then [s] else []) ∧
    (stepRequired nz fz m fT pT acc s).matched_optional =
      acc.matched_optional ∧
    (stepRequired nz fz m fT pT acc s).partial_optional =
      acc.partial_optional ∧
    (stepRequired nz fz m fT pT acc s).missing_optional =
      acc.missing_optional ∧
    (stepRequired nz fz m fT pT acc s).stats.required_matched =
      acc.stats.required_matched +
        (if outP nz fz m fT pT .full s then 1 else 0) ∧
    (stepRequired nz fz m fT pT acc s).stats.required_total =
      acc.stats.required_total ∧
    (stepRequired nz fz m fT pT acc s).stats.optional_matched =
      acc.stats.optional_matched ∧
    (stepRequired nz fz m fT pT acc s).stats.optional_total =
      acc.stats.optional_total := by
  unfold stepRequired
  cases h : outcomeOf nz fz m fT pT s <;> simp [outP, h]

theorem stepOptional_fields (nz : String → String) (fz : String → String → ℚ)
    (m : List (String × ExtractedSkill)) (fT pT : ℚ) (acc : MatchResults)
    (s : String) :
    (stepOptional nz fz m fT pT acc s).matchesL =
      acc.matchesL ++ [mkSkillMatch nz fz m fT pT .optional s] ∧
    (stepOptional nz fz m fT pT acc s).matched_required =
      acc.matched_required ∧
    (stepOptional nz fz m fT pT acc s).partial_required =
      acc.partial_required ∧
    (stepOptional nz fz m fT pT acc s).missing_required =
      acc.missing_required ∧
    (stepOptional nz fz m fT pT acc s).matched_optional =
      acc.matched_optional ++
        (if outP nz fz m fT pT .full s then [s] else []) ∧
    (stepOptional nz fz m fT pT acc s).partial_optional =
      acc.partial_optional ++
        (if outP nz fz m fT pT .partialHit s then [s] else []) ∧
    (stepOptional nz fz m fT pT acc s).missing_optional =
      acc.missing_optional ++
        (if outP nz fz m fT pT .miss s then [s] else []) ∧
    (stepOptional nz fz m fT pT acc s).stats.required_matched =
      acc.stats.required_matched ∧
    (stepOptional nz fz m fT pT acc s).stats.required_total =
      acc.stats.required_total ∧
    (stepOptional nz fz m fT pT acc s).stats.optional_matched =
      acc.stats.optional_matched +
        (if outP nz fz m fT pT .full s then 1 else 0) ∧
    (stepOptional nz fz m fT pT acc s).stats.optional_total =
      acc.stats.optional_total := by
  unfold stepOptional
  cases h : outcomeOf nz fz m fT pT s <;> simp [outP, h]

theorem foldlRequired_fields (nz : String → String) (fz : String → String → ℚ)
    (m : List (String × ExtractedSkill)) (fT pT : ℚ) (l : List String)
    (acc : MatchResults) :
    (l.foldl (stepRequired nz fz m fT pT) acc).matchesL =
      acc.matchesL ++ l.map (mkSkillMatch nz fz m fT pT .required) ∧
    (l.foldl (stepRequired nz fz m fT pT) acc).matched_required =
      acc.matched_required ++ l.filter (outP nz fz m fT pT .full) ∧
    (l.foldl (stepRequired nz fz m fT pT) acc).partial_required =
      acc.partial_required ++ l.filter (outP nz fz m fT pT .partialHit) ∧
    (l.foldl (stepRequired nz fz m fT pT) acc).missing_required =
      acc.missing_required ++ l.filter (outP nz fz m fT pT .miss) ∧
    (l.foldl (stepRequired nz fz m fT pT) acc).matched_optional =
      acc.matched_optional ∧
    (l.foldl (stepRequired nz fz m fT pT) acc).partial_optional =
      acc.partial_optional ∧
    (l.foldl (stepRequired nz fz m fT pT) acc).missing_optional =
      acc.missing_optional ∧
    (l.foldl (stepRequired nz fz m fT pT) acc).stats.required_matched =
      acc.stats.required_matched +
        (l.filter (outP nz fz m fT pT .full)).length ∧
    (l.foldl (stepRequired nz fz m fT pT) acc).stats.required_total =
      acc.stats.required_total ∧
    (l.foldl (stepRequired nz fz m fT pT) acc).stats.optional_matched =
      acc.stats.optional_matched ∧
    (l.foldl (stepRequired nz fz m fT pT) acc).stats.optional_total =
      acc.stats.optional_total := by
  induction l generalizing acc with
  | nil => simp
  | cons s t ih =>
    obtain ⟨h1, h2, h3, h4, h5, h6, h7, h8, h9, h10, h11⟩ :=
      stepRequired_fields nz fz m fT pT acc s
    obtain ⟨i1, i2, i3, i4, i5, i6, i7, i8, i9, i10, i11⟩ :=
      ih (stepRequired nz fz m fT pT acc s)
    refine ⟨?_, ?_, ?_, ?_, ?_, ?_, ?_, ?_, ?_, ?_, ?_⟩ <;>
      simp only [List.foldl_cons, List.map_cons, List.filter_cons,
        List.length_cons] at *
    · rw [i1, h1]; simp
    · rw [i2, h2]
      by_cases ho : outP nz fz m fT pT .full s <;> simp [ho]
    · rw [i3, h3]
      by_cases ho : outP nz fz m fT pT .partialHit s <;> simp [ho]
    · rw [i4, h4]
      by_cases ho : outP nz fz m fT pT .miss s <;> simp [ho]
    · rw [i5, h5]
    · rw [i6, h6]
    · rw [i7, h7]
    · rw [i8, h8]
      by_cases ho : outP nz fz m fT pT .full s <;> simp [ho] <;> omega
    · rw [i9, h9]
    · rw [i10, h10]
    · rw [i11, h11]

theorem foldlOptional_fields (nz : String → String) (fz : String → String → ℚ)
    (m : List (String × ExtractedSkill)) (fT pT : ℚ) (l : List String)
    (acc : MatchResults) :
    (l.foldl (stepOptional nz fz m fT pT) acc).matchesL =
      acc.matchesL ++ l.map (mkSkillMatch nz fz m fT pT .optional) ∧
    (l.foldl (stepOptional nz fz m fT pT) acc).matched_required =
      acc.matched_required ∧
    (l.foldl (stepOptional nz fz m fT pT) acc).partial_required =
      acc.partial_required ∧
    (l.foldl (stepOptional nz fz m fT pT) acc).missing_required =
      acc.missing_required ∧
    (l.foldl (stepOptional nz fz m fT pT) acc).matched_optional =
      acc.matched_optional ++ l.filter (outP nz fz m fT pT .full) ∧
    (l.foldl (stepOptional nz fz m fT pT) acc).partial_optional =
      acc.partial_optional ++ l.filter (outP nz fz m fT pT .partialHit) ∧
    (l.foldl (stepOptional nz fz m fT pT) acc).missing_optional =
      acc.missing_optional ++ l.filter (outP nz fz m fT pT .miss) ∧
    (l.foldl (stepOptional nz fz m fT pT) acc).stats.required_matched =
      acc.stats.required_matched ∧
    (l.foldl (stepOptional nz fz m fT pT) acc).stats.required_total =
      acc.stats.required_total ∧
    (l.foldl (stepOptional nz fz m fT pT) acc).stats.optional_matched =
      acc.stats.optional_matched +
        (l.filter (outP nz fz m fT pT .full)).length ∧
    (l.foldl (stepOptional nz fz m fT pT) acc).stats.optional_total =
      acc.stats.optional_total := by
  induction l generalizing acc with
  | nil => simp
  | cons s t ih =>
    obtain ⟨h1, h2, h3, h4, h5, h6, h7, h8, h9, h10, h11⟩ :=
      stepOptional_fields nz fz m fT pT acc s
    obtain ⟨i1, i2, i3, i4, i5, i6, i7, i8, i9, i10, i11⟩ :=
      ih (stepOptional nz fz m fT pT acc s)
    refine ⟨?_, ?_, ?_, ?_, ?_, ?_, ?_, ?_, ?_, ?_, ?_⟩ <;>
      simp only [List.foldl_cons, List.map_cons, List.filter_cons,
        List.length_cons] at *
    · rw [i1, h1]; simp
    · rw [i2, h2]
    · rw [i3, h3]
    · rw [i4, h4]
    · rw [i5, h5]
      by_cases ho : outP nz fz m fT pT .full s <;> simp [ho]
    · rw [i6, h6]
      by_cases ho : outP nz fz m fT pT .partialHit s <;> simp [ho]
    · rw [i7, h7]
      by_cases ho : outP nz fz m fT pT .miss s <;> simp [ho]
    · rw [i8, h8]
    · rw [i9, h9]
    · rw [i10, h10]
      by_cases ho : outP nz fz m fT pT .full s <;> simp [ho] <;> omega
    · rw [i11, h11]

/-- Full characterization of the match_skills results dictionary. -/
theorem match_skills_fields (nz : String → String) (fz : String → String → ℚ)
    (rs : List ExtractedSkill) (req opt : List String) (fT pT : ℚ) :
    (match_skills nz fz rs req opt fT pT).matchesL =
      req.map (mkSkillMatch nz fz (buildResumeSkillMap nz rs) fT pT .required)
        ++
      opt.map (mkSkillMatch nz fz (buildResumeSkillMap nz rs) fT pT .optional)
      ∧
    (match_skills nz fz rs req opt fT pT).matched_required =
      req.filter (outP nz fz (buildResumeSkillMap nz rs) fT pT .full) ∧
    (match_skills nz fz rs req opt fT pT).partial_required =
      req.filter (outP nz fz (buildResumeSkillMap nz rs) fT pT .partialHit) ∧
    (match_skills nz fz rs req opt fT pT).missing_required =
      req.filter (outP nz fz (buildResumeSkillMap nz rs) fT pT .miss) ∧
    (match_skills nz fz rs req opt fT pT).matched_optional =
      opt.filter (outP nz fz (buildResumeSkillMap nz rs) fT pT .full) ∧
    (match_skills nz fz rs req opt fT pT).partial_optional =
      opt.filter (outP nz fz (buildResumeSkillMap nz rs) fT pT .partialHit) ∧
    (match_skills nz fz rs req opt fT pT).missing_optional =
      opt.filter (outP nz fz (buildResumeSkillMap nz rs) fT pT .miss) ∧
    (match_skills nz fz rs req opt fT pT).stats.required_matched =
      (req.filter (outP nz fz (buildResumeSkillMap nz rs) fT pT .full)).length
      ∧
    (match_skills nz fz rs req opt fT pT).stats.required_total = req.length ∧
    (match_skills nz fz rs req opt fT pT).stats.optional_matched =
      (opt.filter (outP nz fz (buildResumeSkillMap nz rs) fT pT .full)).length
      ∧
    (match_skills nz fz rs req opt fT pT).stats.optional_total = opt.length
    := by
  unfold match_skills
  obtain ⟨r1, r2, r3, r4, r5, r6, r7, r8, r9, r10, r11⟩ :=
    foldlRequired_fields nz fz (buildResumeSkillMap nz rs) fT pT req
      (initResults req.length opt.length)
  obtain ⟨o1, o2, o3, o4, o5, o6, o7, o8, o9, o10, o11⟩ :=
    foldlOptional_fields nz fz (buildResumeSkillMap nz rs) fT pT opt
      (req.foldl (stepRequired nz fz (buildResumeSkillMap nz rs) fT pT)
        (initResults req.length opt.length))
  simp only [initResults] at *
  refine ⟨?_, ?_, ?_, ?_, ?_, ?_, ?_, ?_, ?_, ?_, ?_⟩ <;>
    simp_all

/-! ## Claim theorems: skill matching (C3, C4, C5) -/

theorem mkSkillMatch_priority (nz : String → String)
    (fz : String → String → ℚ) (m : List (String × ExtractedSkill))
    (fT pT : ℚ) (prio : SkillPriority) (s : String) :
    (mkSkillMatch nz fz m fT pT prio s).jd_priority = prio := by
  simp only [mkSkillMatch]
  split <;> rfl

/-- C3: match_skills emits exactly one SkillMatch record per JD skill:
the match list is the required-skill records followed by the
optional-skill records, its length is len(required) + len(optional)
whatever the resume skills are, and the first block carries the required
priority, the rest the optional priority. -/
theorem C3_one_skillmatch_per_jd_skill (nz : String → String)
    (fz : String → String → ℚ) (rs : List ExtractedSkill)
    (req opt : List String) (fT pT : ℚ) :
    (match_skills nz fz rs req opt fT pT).matchesL =
      req.map (mkSkillMatch nz fz (buildResumeSkillMap nz rs) fT pT .required)
        ++
      opt.map (mkSkillMatch nz fz (buildResumeSkillMap nz rs) fT pT .optional)
      ∧
    (match_skills nz fz rs req opt fT pT).matchesL.length =
      req.length + opt.length ∧
    (∀ sm ∈ (match_skills nz fz rs req opt fT pT).matchesL.take req.length,
      sm.jd_priority = .required) ∧
    (∀ sm ∈ (match_skills nz fz rs req opt fT pT).matchesL.drop req.length,
      sm.jd_priority = .optional) := by
  obtain ⟨h1, -, -, -, -, -, -, -, -, -, -⟩ :=
    match_skills_fields nz fz rs req opt fT pT
  have hlen : (req.map (mkSkillMatch nz fz (buildResumeSkillMap nz rs)
      fT pT .required)).length = req.length := List.length_map _ _
  refine ⟨h1, ?_, ?_, ?_⟩
  · rw [h1]; simp
  · rw [h1, List.take_left' hlen]
    intro sm hsm
    obtain ⟨x, -, rfl⟩ := List.mem_map.mp hsm
    exact mkSkillMatch_priority nz fz _ fT pT .required x
  · rw [h1, List.drop_left' hlen]
    intro sm hsm
    obtain ⟨x, -, rfl⟩ := List.mem_map.mp hsm
    exact mkSkillMatch_priority nz fz _ fT pT .optional x

/-- C4: the required-skills component is 100 when the JD has no required
skills and otherwise min(100, (full*100 + partial*50)/total); the optional
component follows the identical formula over the optional skills; a JD with
no required and no optional skills scores 100/100 with no division. -/
theorem C4_component_score_formulas (nz : String → String)
    (fz : String → String → ℚ) (rs : List ExtractedSkill)
    (req opt : List String) (fT pT : ℚ) :
    (calculate_required_skills_score (match_skills nz fz rs req opt fT pT) =
      if req.length = 0 then 100
      else
        min 100
          ((((req.filter
              (outP nz fz (buildResumeSkillMap nz rs) fT pT .full)).length :
                ℚ) * 100 +
            ((req.filter
              (outP nz fz (buildResumeSkillMap nz rs) fT pT
                .partialHit)).length : ℚ) * 50) / (req.length : ℚ))) ∧
    (calculate_optional_skills_score (match_skills nz fz rs req opt fT pT) =
      if opt.length = 0 then 100
      else
        min 100
          ((((opt.filter
              (outP nz fz (buildResumeSkillMap nz rs) fT pT .full)).length :
                ℚ) * 100 +
            ((opt.filter
              (outP nz fz (buildResumeSkillMap nz rs) fT pT
                .partialHit)).length : ℚ) * 50) / (opt.length : ℚ))) ∧
    (req = [] → opt = [] →
      calculate_required_skills_score (match_skills nz fz rs req opt fT pT)
        = 100 ∧
      calculate_optional_skills_score (match_skills nz fz rs req opt fT pT)
        = 100) := by
  obtain ⟨-, -, h3, -, -, h6, -, h8, h9, h10, h11⟩ :=
    match_skills_fields nz fz rs req opt fT pT
  refine ⟨?_, ?_, ?_⟩
  · rw [calculate_required_skills_score, h3, h8, h9]
  · rw [calculate_optional_skills_score, h6, h10, h11]
  · rintro rfl rfl
    constructor
    · rw [calculate_required_skills_score, h9]
      simp
    · rw [calculate_optional_skills_score, h11]
      simp

theorem C4_component_score_formulas_witness :
    calculate_required_skills_score (match_skills id (fun _ _ => 0) [] [] []
      90 70) = 100 ∧
    calculate_optional_skills_score (match_skills id (fun _ _ => 0) [] [] []
      90 70) = 100 :=
  (C4_component_score_formulas id (fun _ _ => 0) [] [] [] 90 70).2.2 rfl rfl

/-- C5: when required skills are missing, the penalty added to the weighted
sum is max(missing_count * missing_required_skill, max_penalty), so it is
never below (more negative than) the configured max_penalty floor, and the
missing-skill note is logged with it; when none are missing, no penalty and
no note are added.  The last conjunct places the penalty in the pipeline:
the pre-bound score is the enforcement step applied to the weighted base
plus this penalty. -/
theorem C5_missing_required_penalty (cfg : EngineConfig) (r : MatchResults)
    (resume : ParsedResume) (jd : ParsedJobDescription) :
    (0 < r.missing_required.length →
      penaltyStep cfg r.missing_required.length =
        (max ((r.missing_required.length : ℚ) * cfg.missing_required_skill)
            cfg.max_penalty,
          [PenaltyNote.missingSkills r.missing_required.length
            (max ((r.missing_required.length : ℚ) *
              cfg.missing_required_skill) cfg.max_penalty)]) ∧
      cfg.max_penalty ≤ (penaltyStep cfg r.missing_required.length).1) ∧
    (r.missing_required.length = 0 →
      penaltyStep cfg r.missing_required.length = (0, [])) ∧
    (preBoundScore cfg r resume jd).1 =
      (enforcementStep cfg r
        (weightedBase cfg r resume jd +
          (penaltyStep cfg r.missing_required.length).1)).1 := by
  refine ⟨fun h => ⟨?_, ?_⟩, fun h => ?_, ?_⟩
  · simp [penaltyStep, h]
  · simp only [penaltyStep, if_pos h]
    exact le_max_right _ _
  · simp [penaltyStep, h]
  · rfl

/-- Concrete scoring configuration with the default values named by the
spec: weights 0.4/0.2/0.25/0.15, thresholds 90/70, penalties -10 floored at
-30, bounds [0, 100], minimum required ratio 0.5 with cap 40. -/
def cfg0 : EngineConfig where
  w_required := 2/5
  w_optional := 1/5
  w_experience := 1/4
  w_education := 3/20
  full_match_threshold := 90
  partial_match_threshold := 70
  missing_required_skill := -10
  max_penalty := -30
  bound_min := 0
  bound_max := 100
  minimum_required_matched := 1/2
  below_minimum_cap := 40
  leadership := none
  scale := none
  technical_depth := none
  degree_levels := []
  field_match_bonus := 10

/-- Identity normalizer (stand-in for a taxonomy-free normalizer). -/
def nz0 : String → String := id

/-- Exact-equality fuzzy scorer. -/
def fz0 : String → String → ℚ := fun a b => if a = b then 100 else 0

/-- Empty resume. -/
def resume0 : ParsedResume := ⟨"", [], [], []⟩

/-- JD requiring one skill. -/
def jd0 : ParsedJobDescription := ⟨"python developer", ["python"], [], none⟩

/-- The match results for resume0 against jd0. -/
def r0 : MatchResults :=
  match_skills nz0 fz0 resume0.skills jd0.required_skills jd0.optional_skills
    cfg0.full_match_threshold cfg0.partial_match_threshold

theorem C5_missing_required_penalty_witness :
    0 < r0.missing_required.length ∧
    cfg0.max_penalty ≤ (penaltyStep cfg0 r0.missing_required.length).1 := by
  have h : 0 < r0.missing_required.length := by decide
  exact ⟨h, ((C5_missing_required_penalty cfg0 r0 resume0 jd0).1 h).2⟩

/-! ## Claim theorems: final score bounds and floor enforcement (C1, C2) -/

/-- C1: with configured score bounds min = 0 and max = 100, the final
job_fit_score of every evaluation is an integer in [0, 100], obtained as
round(clamp(score, 0, 100)) of the pre-bound weighted score. -/
theorem C1_score_bounds (cfg : EngineConfig) (nz : String → String)
    (fz : String → String → ℚ) (resume : ParsedResume)
    (jd : ParsedJobDescription)
    (hmin : cfg.bound_min = 0) (hmax : cfg.bound_max = 100) :
    0 ≤ (evaluate cfg nz fz resume jd).job_fit_score ∧
    (evaluate cfg nz fz resume jd).job_fit_score ≤ 100 ∧
    (evaluate cfg nz fz resume jd).job_fit_score =
      pyRound (max 0 (min 100
        (preBoundScore cfg (engineMatch cfg nz fz resume jd) resume
          jd).1)) := by
  have heq : (evaluate cfg nz fz resume jd).job_fit_score =
      pyRound (max 0 (min 100
        (preBoundScore cfg (engineMatch cfg nz fz resume jd) resume jd).1))
      := by
    show bound_score cfg _ = _
    rw [bound_score, hmin, hmax]
  refine ⟨?_, ?_, heq⟩
  · rw [heq]
    exact le_pyRound_of_le 0 _ (by push_cast; exact le_max_left _ _)
  · rw [heq]
    apply pyRound_le_of_le
    push_cast
    exact max_le (by norm_num) (min_le_left _ _)

theorem C1_score_bounds_witness :
    cfg0.bound_min = 0 ∧ cfg0.bound_max = 100 ∧
    0 ≤ (evaluate cfg0 nz0 fz0 resume0 jd0).job_fit_score ∧
    (evaluate cfg0 nz0 fz0 resume0 jd0).job_fit_score ≤ 100 :=
  ⟨rfl, rfl, (C1_score_bounds cfg0 nz0 fz0 resume0 jd0 rfl rfl).1,
    (C1_score_bounds cfg0 nz0 fz0 resume0 jd0 rfl rfl).2.1⟩

/-- C2 (amended): when required_total > 0 and the matched fraction is below
the configured minimum, the final score is bounded by the (non-negative
integer) cap, regardless of the other component scores; the cap note is
appended to the penalties log exactly when the weighted score before
enforcement exceeds the cap. -/
theorem C2_below_minimum_cap (cfg : EngineConfig) (nz : String → String)
    (fz : String → String → ℚ) (resume : ParsedResume)
    (jd : ParsedJobDescription) (c : ℤ)
    (hmin : cfg.bound_min = 0) (hmax : cfg.bound_max = 100)
    (hcap : cfg.below_minimum_cap = (c : ℚ)) (hc : 0 ≤ c)
    (hT : 0 < (engineMatch cfg nz fz resume jd).stats.required_total)
    (hR : requiredFraction (engineMatch cfg nz fz resume jd) <
      cfg.minimum_required_matched) :
    (evaluate cfg nz fz resume jd).job_fit_score ≤ c ∧
    (cfg.below_minimum_cap <
        weightedBase cfg (engineMatch cfg nz fz resume jd) resume jd +
          (penaltyStep cfg
            (engineMatch cfg nz fz resume jd).missing_required.length).1 →
      PenaltyNote.capped cfg.below_minimum_cap cfg.minimum_required_matched
        ∈ (evaluate cfg nz fz resume jd).score_breakdown.penalties_applied)
    := by
  have hre : (evaluate cfg nz fz resume jd).job_fit_score =
      bound_score cfg
        (preBoundScore cfg (engineMatch cfg nz fz resume jd) resume jd).1 :=
    rfl
  have hlog :
      (evaluate cfg nz fz resume jd).score_breakdown.penalties_applied =
      (preBoundScore cfg (engineMatch cfg nz fz resume jd) resume jd).2 :=
    rfl
  set R := engineMatch cfg nz fz resume jd with hRdef
  set w := weightedBase cfg R resume jd +
    (penaltyStep cfg R.missing_required.length).1 with hwdef
  have henf : enforcementStep cfg R w =
      if cfg.below_minimum_cap < w then
        (cfg.below_minimum_cap,
          [PenaltyNote.capped cfg.below_minimum_cap
            cfg.minimum_required_matched])
      else (w, []) := by
    rw [enforcementStep, if_pos hT, if_pos hR]
  have hpre1 : (preBoundScore cfg R resume jd).1 =
      (enforcementStep cfg R w).1 := rfl
  have hpre2 : (preBoundScore cfg R resume jd).2 =
      (penaltyStep cfg R.missing_required.length).2 ++
        (enforcementStep cfg R w).2 := rfl
  have h0 : ((0 : ℤ) : ℚ) ≤ (c : ℚ) := by exact_mod_cast hc
  by_cases hw : cfg.below_minimum_cap < w
  · constructor
    · rw [hre, hpre1, henf, if_pos hw, bound_score, hmin, hmax, hcap]
      apply pyRound_le_of_le
      exact max_le (by exact_mod_cast hc) (min_le_right _ _)
    · intro _
      rw [hlog, hpre2, henf, if_pos hw]
      simp
  · constructor
    · have hwle : w ≤ cfg.below_minimum_cap := not_lt.mp hw
      rw [hre, hpre1, henf, if_neg hw, bound_score, hmin, hmax]
      apply pyRound_le_of_le
      refine max_le (by exact_mod_cast hc) ?_
      calc min 100 w ≤ w := min_le_right _ _
        _ ≤ (c : ℚ) := by rw [← hcap]; exact hwle
    · intro hcontra
      exact absurd hcontra hw

theorem C2_below_minimum_cap_witness :
    0 < (engineMatch cfg0 nz0 fz0 resume0 jd0).stats.required_total ∧
    requiredFraction (engineMatch cfg0 nz0 fz0 resume0 jd0) <
      cfg0.minimum_required_matched ∧
    (evaluate cfg0 nz0 fz0 resume0 jd0).job_fit_score ≤ 40 := by
  have hT : 0 < (engineMatch cfg0 nz0 fz0 resume0 jd0).stats.required_total
    := by decide
  have hm : (engineMatch cfg0 nz0 fz0 resume0 jd0).stats.required_matched = 0
    := by decide
  have ht : (engineMatch cfg0 nz0 fz0 resume0 jd0).stats.required_total = 1
    := by decide
  have hR : requiredFraction (engineMatch cfg0 nz0 fz0 resume0 jd0) <
      cfg0.minimum_required_matched := by
    rw [requiredFraction, hm, ht]
    norm_num [cfg0]
  exact ⟨hT, hR,
    (C2_below_minimum_cap cfg0 nz0 fz0 resume0 jd0 40 rfl rfl
      (by norm_num [cfg0]) (by norm_num) hT hR).1⟩

/-- C2 counterexample: resume0 matches 0 of the 1 required skill of jd0
(fraction 0 < minimum 0.5), yet the weighted score (30) is already below
the cap (40), so evaluate appends no cap note to the penalties log, while
the claim as stated asserts a note is appended whenever the fraction is
below the minimum. -/
theorem C2_cap_note_counterexample :
    0 < (engineMatch cfg0 nz0 fz0 resume0 jd0).stats.required_total ∧
    requiredFraction (engineMatch cfg0 nz0 fz0 resume0 jd0) <
      cfg0.minimum_required_matched ∧
    (evaluate cfg0 nz0 fz0 resume0 jd0).score_breakdown.penalties_applied =
      [PenaltyNote.missingSkills 1 (-10)] ∧
    PenaltyNote.capped cfg0.below_minimum_cap cfg0.minimum_required_matched
      ∉ (evaluate cfg0 nz0 fz0 resume0 jd0).score_breakdown.penalties_applied
    ∧
    (evaluate cfg0 nz0 fz0 resume0 jd0).job_fit_score = 30 := by
  have hmr : (engineMatch cfg0 nz0 fz0 resume0 jd0).missing_required =
      ["python"] := by decide
  have hm : (engineMatch cfg0 nz0 fz0 resume0 jd0).stats.required_matched = 0
    := by decide
  have ht : (engineMatch cfg0 nz0 fz0 resume0 jd0).stats.required_total = 1
    := by decide
  have hto : (engineMatch cfg0 nz0 fz0 resume0 jd0).stats.optional_total = 0
    := by decide
  have hpr : (engineMatch cfg0 nz0 fz0 resume0 jd0).partial_required = []
    := by decide
  set R := engineMatch cfg0 nz0 fz0 resume0 jd0 with hRdef
  have hreq : calculate_required_skills_score R = 0 := by
    rw [calculate_required_skills_score, hm, ht, hpr]
    norm_num
  have hopt : calculate_optional_skills_score R = 100 := by
    rw [calculate_optional_skills_score, hto]
    norm_num
  have hexps : calculate_experience_score cfg0 resume0 = 50 := rfl
  have hedus : calculate_education_score cfg0 resume0 jd0 = 50 := rfl
  have hwb : weightedBase cfg0 R resume0 jd0 = 40 := by
    rw [weightedBase, hreq, hopt, hexps, hedus]
    norm_num [cfg0]
  have hlen : R.missing_required.length = 1 := by
    rw [hmr]
    rfl
  have hpen : penaltyStep cfg0 R.missing_required.length =
      (-10, [PenaltyNote.missingSkills 1 (-10)]) := by
    rw [hlen, penaltyStep]
    norm_num [cfg0]
  have hfrac : requiredFraction R < cfg0.minimum_required_matched := by
    rw [requiredFraction, hm, ht]
    norm_num [cfg0]
  have ht1 : 0 < R.stats.required_total := by rw [ht]; norm_num
  have harg : weightedBase cfg0 R resume0 jd0 +
      (penaltyStep cfg0 R.missing_required.length).1 = 30 := by
    rw [hwb, hpen]
    norm_num
  have hnotlt : ¬ cfg0.below_minimum_cap < (30 : ℚ) := by norm_num [cfg0]
  have henf : enforcementStep cfg0 R (weightedBase cfg0 R resume0 jd0 +
      (penaltyStep cfg0 R.missing_required.length).1) = (30, []) := by
    rw [harg, enforcementStep, if_pos ht1, if_pos hfrac, if_neg hnotlt]
  have hpre1 : (preBoundScore cfg0 R resume0 jd0).1 = 30 := by
    show (enforcementStep cfg0 R (weightedBase cfg0 R resume0 jd0 +
      (penaltyStep cfg0 R.missing_required.length).1)).1 = 30
    rw [henf]
  have hpre2 : (preBoundScore cfg0 R resume0 jd0).2 =
      [PenaltyNote.missingSkills 1 (-10)] := by
    show (penaltyStep cfg0 R.missing_required.length).2 ++
      (enforcementStep cfg0 R (weightedBase cfg0 R resume0 jd0 +
        (penaltyStep cfg0 R.missing_required.length).1)).2 =
      [PenaltyNote.missingSkills 1 (-10)]
    rw [henf, hpen]
    rfl
  have hlogeq :
      (evaluate cfg0 nz0 fz0 resume0 jd0).score_breakdown.penalties_applied =
      (preBoundScore cfg0 R resume0 jd0).2 := rfl
  have hscoreeq : (evaluate cfg0 nz0 fz0 resume0 jd0).job_fit_score =
      bound_score cfg0 (preBoundScore cfg0 R resume0 jd0).1 := rfl
  refine ⟨ht1, hfrac, ?_, ?_, ?_⟩
  · rw [hlogeq, hpre2]
  · rw [hlogeq, hpre2]
    simp
  · rw [hscoreeq, hpre1, bound_score]
    have h30 : max cfg0.bound_min (min cfg0.bound_max (30 : ℚ)) =
        ((30 : ℤ) : ℚ) := by norm_num [cfg0]
    rw [h30, pyRound_intCast]

/-! ## Claim theorem: confidence level (C8) -/

/-- C8: the confidence level is high exactly when the resume has at least
one experience entry, more than 5 skills and the JD at least one required
skill; it is low exactly when the resume has fewer than 3 skills (the
low-skill test downgrades whenever it applies, and can never conflict with
the high condition); otherwise it is medium. -/
theorem C8_confidence_level (cfg : EngineConfig) (nz : String → String)
    (fz : String → String → ℚ) (resume : ParsedResume)
    (jd : ParsedJobDescription) :
    ((evaluate cfg nz fz resume jd).confidence_level = .high ↔
      (0 < resume.experience.length ∧ 5 < resume.skills.length ∧
        0 < jd.required_skills.length)) ∧
    ((evaluate cfg nz fz resume jd).confidence_level = .low ↔
      resume.skills.length < 3) ∧
    ((evaluate cfg nz fz resume jd).confidence_level = .medium ↔
      (¬(0 < resume.experience.length ∧ 5 < resume.skills.length ∧
          0 < jd.required_skills.length) ∧
        ¬resume.skills.length < 3)) := by
  have h : (evaluate cfg nz fz resume jd).confidence_level =
      confidenceOf resume jd := rfl
  rw [h]
  unfold confidenceOf
  split_ifs with h1 h2 <;> refine ⟨?_, ?_, ?_⟩ <;> simp_all <;> omega

/-! ## Claim theorem: education score (C10) -/

theorem degreeStep_le (levels : List (String × ℚ)) (m : ℚ)
    (e : EducationEntry) : m ≤ degreeStep levels m e := by
  unfold degreeStep
  split
  · exact le_max_left _ _
  · exact le_rfl

theorem le_degreeMaxScore (levels : List (String × ℚ))
    (edus : List EducationEntry) : 50 ≤ degreeMaxScore levels edus := by
  unfold degreeMaxScore
  have key : ∀ (l : List EducationEntry) (a : ℚ),
      a ≤ l.foldl (degreeStep levels) a := by
    intro l
    induction l with
    | nil => intro a; simp
    | cons e t ih =>
        intro a
        exact le_trans (degreeStep_le levels a e) (ih _)
  exact key edus 50

/-- C10: for a resume with at least one education entry and a non-negative
field_match_bonus, the education score lies in [50, 100]: the running
maximum starts at the 50-point neutral baseline (so configured degree
scores below 50 cannot pull it lower), and the field-of-study bonus is
added at most once (it is either 0 or exactly field_match_bonus). -/
theorem C10_education_score_range (cfg : EngineConfig)
    (resume : ParsedResume) (jd : ParsedJobDescription)
    (h1 : resume.education ≠ []) (h2 : 0 ≤ cfg.field_match_bonus) :
    50 ≤ calculate_education_score cfg resume jd ∧
    calculate_education_score cfg resume jd ≤ 100 ∧
    calculate_education_score cfg resume jd =
      min 100 (degreeMaxScore cfg.degree_levels resume.education +
        educationFieldBonus cfg resume jd) ∧
    (educationFieldBonus cfg resume jd = 0 ∨
      educationFieldBonus cfg resume jd = cfg.field_match_bonus) := by
  have hb : educationFieldBonus cfg resume jd = 0 ∨
      educationFieldBonus cfg resume jd = cfg.field_match_bonus := by
    cases hjd : jd.education_requirements with
    | none => exact Or.inl (by simp [educationFieldBonus, hjd])
    | some req =>
        simp only [educationFieldBonus, hjd]
        split_ifs <;> simp
  have hb0 : 0 ≤ educationFieldBonus cfg resume jd := by
    rcases hb with h | h
    · rw [h]
    · rw [h]
      exact h2
  have hform : calculate_education_score cfg resume jd =
      min 100 (degreeMaxScore cfg.degree_levels resume.education +
        educationFieldBonus cfg resume jd) := by
    unfold calculate_education_score
    rw [if_neg h1]
  refine ⟨?_, ?_, hform, hb⟩
  · rw [hform]
    have hd := le_degreeMaxScore cfg.degree_levels resume.education
    have hsum : (50 : ℚ) ≤ degreeMaxScore cfg.degree_levels resume.education
        + educationFieldBonus cfg resume jd := by linarith
    exact le_min (by norm_num) hsum
  · rw [hform]
    exact min_le_left _ _

/-- Resume with a single education entry, for the C10 witness. -/
def resumeEdu : ParsedResume :=
  ⟨"", [⟨"MIT", "B.S. Computer Science", some "Computer Science",
    "B.S. Computer Science, MIT"⟩], [], []⟩

theorem C10_education_score_range_witness :
    resumeEdu.education ≠ [] ∧ (0 : ℚ) ≤ cfg0.field_match_bonus ∧
    50 ≤ calculate_education_score cfg0 resumeEdu jd0 ∧
    calculate_education_score cfg0 resumeEdu jd0 ≤ 100 := by
  have h1 : resumeEdu.education ≠ [] := by simp [resumeEdu]
  have h2 : (0 : ℚ) ≤ cfg0.field_match_bonus := by norm_num [cfg0]
  exact ⟨h1, h2, (C10_education_score_range cfg0 resumeEdu jd0 h1 h2).1,
    (C10_education_score_range cfg0 resumeEdu jd0 h1 h2).2.1⟩

/-! ## Skill normalizer (taxonomy/normalizer.py) -/

/-- Taxonomy state of SkillNormalizer: the flat canonical-skill list, the
insertion-ordered alias-to-canonical map, and the confidence thresholds. -/
structure Taxonomy where
  canonicalSkills : List String
  aliasMap : List (String × String)
  thHigh : ℚ
  thMed : ℚ
  thLow : ℚ
deriving DecidableEq, Repr

/-- Python dict lookup on the alias map. -/
def aliasLookup (am : List (String × String)) (k : String) : Option String :=
  match am with
  | [] => none
  | (k0, v) :: rest => if k0 = k then some v else aliasLookup rest k

/-- rapidfuzz process.extractOne over the canonical list: the query is
compared with each lower-cased canonical name, the best strictly-improving
score wins (first maximum kept), and the original canonical name at the
winning index is returned. -/
def extractCanonical (fz : String → String → ℚ) (sl : String)
    (cs : List String) : Option (String × ℚ) :=
  cs.foldl
    (fun best c =>
      let sc := fz sl (pyLower c)
      match best with
      | none => some (c, sc)
      | some (b, bs) => if bs < sc then some (c, sc) else some (b, bs))
    none

/-- rapidfuzz process.extractOne over the alias keys. -/
def extractAliasKey (fz : String → String → ℚ) (sl : String)
    (am : List (String × String)) : Option (String × ℚ) :=
  am.foldl
    (fun best kv =>
      let sc := fz sl kv.1
      match best with
      | none => some (kv.1, sc)
      | some (b, bs) => if bs < sc then some (kv.1, sc) else some (b, bs))
    none

/-- _score_to_confidence of the normalizer, threshold-driven. -/
def normalizerConfidence (T : Taxonomy) (score : ℚ) : String :=
  if T.thHigh ≤ score then "high"
  else if T.thMed ≤ score then "medium"
  else if T.thLow ≤ score then "low"
  else "no_match"

/-- Final block of SkillNormalizer.normalize: `if result:` reads the local
variable result, which is unbound when the canonical-fuzzy block was
skipped; that read raises in Python and is modelled as an error. -/
def normalizeFinal (T : Taxonomy) (skill : String)
    (result : Option (String × ℚ)) : Except String (String × String × ℚ) :=
  match result with
  | none => .error "UnboundLocalError: result"
  | some (c, sc) =>
      let conf := normalizerConfidence T sc
      if conf ≠ "no_match" then .ok (c, conf, sc)
      else .ok (skill, "no_match", 0)

/-- Alias-fuzzy block of SkillNormalizer.normalize.  Inside it the line
`canonical_score = result[1] if result else 0` reads the possibly-unbound
local result. -/
def normalizeAliasBlock (fz : String → String → ℚ) (T : Taxonomy)
    (skill sl : String) (result : Option (String × ℚ)) :
    Except String (String × String × ℚ) :=
  if T.aliasMap.isEmpty then normalizeFinal T skill result
  else
    match extractAliasKey fz sl T.aliasMap with
    | none => normalizeFinal T skill result
    | some (ak, asc) =>
        match result with
        | none => .error "UnboundLocalError: result"
        | some (_, csc) =>
            if csc < asc ∧ T.thMed ≤ asc then
              match aliasLookup T.aliasMap ak with
              | some c => .ok (c, normalizerConfidence T asc, asc)
              | none => .error "KeyError"
            else normalizeFinal T skill result

/-- SkillNormalizer.normalize (taxonomy/normalizer.py): exact alias hit,
exact canonical hit, canonical fuzzy match (early return when it clears the
high threshold), alias fuzzy match (preferred when strictly better and at
least medium), best canonical fuzzy fallback, else the raw input with
confidence no_match.  Errors model Python exceptions. -/
def normalize (fz : String → String → ℚ) (T : Taxonomy) (skill : String) :
    Except String (String × String × ℚ) :=
  let sl := pyStrip (pyLower skill)
  match aliasLookup T.aliasMap sl with
  | some c => .ok (c, "high", 100)
  | none =>
  match T.canonicalSkills.find? (fun c => pyLower c = sl) with
  | some c => .ok (c, "high", 100)
  | none =>
    let result : Option (String × ℚ) :=
      if T.canonicalSkills.isEmpty then none
      else extractCanonical fz sl T.canonicalSkills
    match result with
    | some (c, sc) =>
        if T.thHigh ≤ sc then .ok (c, "high", sc)
        else normalizeAliasBlock fz T skill sl result
    | none => normalizeAliasBlock fz T skill sl result

/-- An entirely empty taxonomy. -/
def emptyTaxonomy : Taxonomy := ⟨[], [], 90, 75, 60⟩

/-- C6: on a taxonomy with no canonical skills the fuzzy block that binds
the local variable result is skipped, and the final `if result:` (or the
alias block read of result) raises UnboundLocalError instead of returning
(skill, "no_match", 0.0): the code contradicts the claimed error handling.
Conjunct 1 evaluates the failing input; conjunct 2 shows every skill
lookup on the empty taxonomy raises. -/
theorem C6_empty_taxonomy_raises :
    normalize (fun _ _ => 0) emptyTaxonomy "python" =
      .error "UnboundLocalError: result" ∧
    (∀ (T : Taxonomy), T.canonicalSkills = [] → T.aliasMap = [] →
      ∀ (fz : String → String → ℚ) (skill : String),
        normalize fz T skill = .error "UnboundLocalError: result") := by
  constructor
  · rfl
  · rintro ⟨cs, am, a, b, c⟩ hcs ham fz skill
    subst hcs
    subst ham
    rfl

theorem C6_empty_taxonomy_raises_witness :
    emptyTaxonomy.canonicalSkills = [] ∧ emptyTaxonomy.aliasMap = [] ∧
    normalize (fun a b => if a = b then 100 else 0) emptyTaxonomy "aws" =
      .error "UnboundLocalError: result" :=
  ⟨rfl, rfl,
    C6_empty_taxonomy_raises.2 emptyTaxonomy rfl rfl
      (fun a b => if a = b then 100 else 0) "aws"⟩

/-! ## Normalizer idempotence (C7) -/

theorem aliasLookup_mem (am : List (String × String)) (k v : String)
    (h : aliasLookup am k = some v) : ∃ k0, (k0, v) ∈ am := by
  induction am with
  | nil => simp [aliasLookup] at h
  | cons kv rest ih =>
      obtain ⟨k0, v0⟩ := kv
      rw [aliasLookup] at h
      split_ifs at h with he
      · exact ⟨k0, by simp [Option.some_inj.mp h]⟩
      · obtain ⟨k1, hk1⟩ := ih h
        exact ⟨k1, List.mem_cons_of_mem _ hk1⟩

theorem extractCanonical_foldl_mem (fz : String → String → ℚ) (sl : String)
    (cs : List String) (acc : Option (String × ℚ)) (c : String) (sc : ℚ)
    (h : cs.foldl
      (fun best d =>
        let s2 := fz sl (pyLower d)
        match best with
        | none => some (d, s2)
        | some (b, bs) => if bs < s2 then some (d, s2) else some (b, bs))
      acc = some (c, sc)) :
    acc = some (c, sc) ∨ c ∈ cs := by
  induction cs generalizing acc with
  | nil => exact Or.inl h
  | cons d t ih =>
      rw [List.foldl_cons] at h
      rcases ih _ h with hstep | hmem
      · cases hacc : acc with
        | none =>
            rw [hacc] at hstep
            simp only [Option.some.injEq, Prod.mk.injEq] at hstep
            exact Or.inr (by simp [hstep.1.symm])
        | some p =>
            obtain ⟨b, bs⟩ := p
            rw [hacc] at hstep
            simp only at hstep
            split_ifs at hstep with hlt
            · simp only [Option.some.injEq, Prod.mk.injEq] at hstep
              exact Or.inr (by simp [hstep.1.symm])
            · simp only [Option.some.injEq, Prod.mk.injEq] at hstep
              exact Or.inl (by rw [hstep.1, hstep.2])
      · exact Or.inr (List.mem_cons_of_mem _ hmem)

theorem extractCanonical_mem (fz : String → String → ℚ) (sl : String)
    (cs : List String) (c : String) (sc : ℚ)
    (h : extractCanonical fz sl cs = some (c, sc)) : c ∈ cs := by
  rcases extractCanonical_foldl_mem fz sl cs none c sc h with h0 | h0
  · simp at h0
  · exact h0

theorem normalizeFinal_ok_cases (T : Taxonomy) (skill : String)
    (result : Option (String × ℚ)) (r : String × String × ℚ)
    (h : normalizeFinal T skill result = .ok r) :
    (∃ sc, result = some (r.1, sc)) ∨ r = (skill, "no_match", 0) := by
  cases result with
  | none => simp [normalizeFinal] at h
  | some p =>
      obtain ⟨c, sc⟩ := p
      rw [normalizeFinal] at h
      split_ifs at h with hc
      · left
        refine ⟨sc, ?_⟩
        have := Except.ok.inj h
        rw [← this]
      · right
        have := Except.ok.inj h
        rw [← this]

theorem normalizeAliasBlock_ok_cases (fz : String → String → ℚ)
    (T : Taxonomy) (skill sl : String) (result : Option (String × ℚ))
    (r : String × String × ℚ)
    (h : normalizeAliasBlock fz T skill sl result = .ok r) :
    (∃ k0, (k0, r.1) ∈ T.aliasMap) ∨ (∃ sc, result = some (r.1, sc)) ∨
      r = (skill, "no_match", 0) := by
  rw [normalizeAliasBlock] at h
  split_ifs at h with hemp
  · rcases normalizeFinal_ok_cases T skill result r h with h0 | h0
    · exact Or.inr (Or.inl h0)
    · exact Or.inr (Or.inr h0)
  · revert h
    cases hek : extractAliasKey fz sl T.aliasMap with
    | none =>
        intro h
        rcases normalizeFinal_ok_cases T skill result r h with h0 | h0
        · exact Or.inr (Or.inl h0)
        · exact Or.inr (Or.inr h0)
    | some p =>
        obtain ⟨ak, asc⟩ := p
        cases result with
        | none => intro h; simp at h
        | some q =>
            obtain ⟨b, csc⟩ := q
            intro h
            simp only at h
            split_ifs at h with hcond
            · revert h
              cases hal : aliasLookup T.aliasMap ak with
              | none => intro h; simp at h
              | some c =>
                  intro h
                  have hr := Except.ok.inj h
                  obtain ⟨k0, hk0⟩ := aliasLookup_mem T.aliasMap ak c hal
                  left
                  refine ⟨k0, ?_⟩
                  rw [← hr]
                  exact hk0
            · rcases normalizeFinal_ok_cases T skill (some (b, csc)) r h
                with h0 | h0
              · exact Or.inr (Or.inl h0)
              · exact Or.inr (Or.inr h0)

/-- Every successful normalize result is a canonical skill, an alias-map
value, or the raw input tagged no_match. -/
theorem normalize_ok_cases (fz : String → String → ℚ) (T : Taxonomy)
    (x : String) (r : String × String × ℚ)
    (h : normalize fz T x = .ok r) :
    r.1 ∈ T.canonicalSkills ∨ (∃ k0, (k0, r.1) ∈ T.aliasMap) ∨
      r = (x, "no_match", 0) := by
  rw [normalize] at h
  revert h
  cases hal : aliasLookup T.aliasMap (pyStrip (pyLower x)) with
  | some c =>
      intro h
      have hr := Except.ok.inj h
      obtain ⟨k0, hk0⟩ := aliasLookup_mem _ _ _ hal
      exact Or.inr (Or.inl ⟨k0, by rw [← hr]; exact hk0⟩)
  | none =>
  cases hfd : T.canonicalSkills.find?
      (fun c => pyLower c = pyStrip (pyLower x)) with
  | some c =>
      intro h
      have hr := Except.ok.inj h
      have hmem := List.mem_of_find?_eq_some hfd
      exact Or.inl (by rw [← hr]; exact hmem)
  | none =>
      simp only
      cases hres : (if T.canonicalSkills.isEmpty then none
          else extractCanonical fz (pyStrip (pyLower x)) T.canonicalSkills) with
      | none =>
          intro h
          rcases normalizeAliasBlock_ok_cases fz T x (pyStrip (pyLower x))
              none r h with h0 | h0 | h0
          · exact Or.inr (Or.inl h0)
          · obtain ⟨sc, hsc⟩ := h0
            simp at hsc
          · exact Or.inr (Or.inr h0)
      | some p =>
          obtain ⟨c, sc⟩ := p
          have hcmem : c ∈ T.canonicalSkills := by
            revert hres
            split_ifs with he
            · intro hres; simp at hres
            · intro hres
              exact extractCanonical_mem fz _ _ _ _ hres
          intro h
          simp only at h
          split_ifs at h with hhigh
          · have hr := Except.ok.inj h
            exact Or.inl (by rw [← hr]; exact hcmem)
          · rcases normalizeAliasBlock_ok_cases fz T x (pyStrip (pyLower x))
                (some (c, sc)) r h with h0 | h0 | h0
            · exact Or.inr (Or.inl h0)
            · obtain ⟨sc2, hsc2⟩ := h0
              have : c = r.1 := by
                have := Option.some_inj.mp hsc2
                exact congrArg Prod.fst this
              exact Or.inl (this ▸ hcmem)
            · exact Or.inr (Or.inr h0)

/-- Canonical names are fixed points of normalize when the taxonomy is
well formed: no alias key shadows a canonical name with a different target
and the exact canonical scan finds each canonical name itself. -/
theorem normalize_canonical_fixed (fz : String → String → ℚ) (T : Taxonomy)
    (H2 : ∀ c ∈ T.canonicalSkills,
      aliasLookup T.aliasMap (pyStrip (pyLower c)) = none ∨
      aliasLookup T.aliasMap (pyStrip (pyLower c)) = some c)
    (H3 : ∀ c ∈ T.canonicalSkills,
      T.canonicalSkills.find? (fun k => pyLower k = pyStrip (pyLower c)) =
        some c)
    (c : String) (hc : c ∈ T.canonicalSkills) :
    normalize fz T c = .ok (c, "high", 100) := by
  rw [normalize]
  rcases H2 c hc with h2 | h2
  · rw [h2, H3 c hc]
  · rw [h2]

/-- C7: the canonical name returned by a successful normalize call is a
fixed point of normalize, for every well-formed taxonomy (alias values are
canonical, no alias key shadows a canonical name with a different target,
and the exact canonical scan finds each canonical name itself). -/
theorem C7_normalize_idempotent (fz : String → String → ℚ) (T : Taxonomy)
    (H2 : ∀ c ∈ T.canonicalSkills,
      aliasLookup T.aliasMap (pyStrip (pyLower c)) = none ∨
      aliasLookup T.aliasMap (pyStrip (pyLower c)) = some c)
    (H3 : ∀ c ∈ T.canonicalSkills,
      T.canonicalSkills.find? (fun k => pyLower k = pyStrip (pyLower c)) =
        some c)
    (H4 : ∀ kv ∈ T.aliasMap, kv.2 ∈ T.canonicalSkills)
    (x : String) (r : String × String × ℚ)
    (h : normalize fz T x = .ok r) :
    ∃ r2, normalize fz T r.1 = .ok r2 ∧ r2.1 = r.1 := by
  rcases normalize_ok_cases fz T x r h with hmem | hmem | hmem
  · exact ⟨(r.1, "high", 100),
      normalize_canonical_fixed fz T H2 H3 r.1 hmem, rfl⟩
  · obtain ⟨k0, hk0⟩ := hmem
    have hcan : r.1 ∈ T.canonicalSkills := H4 (k0, r.1) hk0
    exact ⟨(r.1, "high", 100),
      normalize_canonical_fixed fz T H2 H3 r.1 hcan, rfl⟩
  · refine ⟨r, ?_, rfl⟩
    have hx : r.1 = x := by rw [hmem]
    rw [hx]
    exact h

/-- Small well-formed taxonomy for the C7 witness. -/
def tax0 : Taxonomy :=
  ⟨["Python", "AWS"],
    [("amazon web services", "AWS"), ("py", "Python")], 90, 75, 60⟩

theorem C7_normalize_idempotent_witness :
    normalize (fun a b => if a = b then 100 else 0) tax0 "Python" =
      .ok ("Python", "high", 100) ∧
    (∃ r2, normalize (fun a b => if a = b then 100 else 0) tax0 "Python" =
      .ok r2 ∧ r2.1 = "Python") := by
  have h : normalize (fun a b => if a = b then 100 else 0) tax0 "Python" =
      .ok ("Python", "high", 100) := rfl
  refine ⟨h, ?_⟩
  have := C7_normalize_idempotent (fun a b => if a = b then 100 else 0) tax0
    (by decide) (by decide) (by decide) "Python" ("Python", "high", 100) h
  exact this

/-! ## Section header detection (parsers/section_detector.py, C9)

The combined header regex is modelled with nondeterministic matchers over
character lists: a matcher maps an input suffix to the list of remainders
after every possible way of consuming a prefix. -/

/-- Nondeterministic prefix matcher: all remainders after consuming. -/
abbrev Matcher := List Char → List (List Char)

/-- Empty-match combinator. -/
def mEps : Matcher := fun s => [s]

/-- Literal-string combinator. -/
def mLit (l : List Char) : Matcher := fun s =>
  if l.isPrefixOf s then [s.drop l.length] else []

/-- Sequencing combinator. -/
def mSeq (a b : Matcher) : Matcher := fun s => (a s).bind b

/-- Binary alternation combinator. -/
def mAlt2 (a b : Matcher) : Matcher := fun s => a s ++ b s

/-- Option combinator (regex `?`). -/
def mOpt (a : Matcher) : Matcher := mAlt2 mEps a

/-- All stop points of `[class]*`: the suffixes reachable by deleting a
prefix of class characters. -/
def starStops (p : Char → Bool) : List Char → List (List Char)
  | [] => [[]]
  | c :: cs => (c :: cs) :: (if p c then starStops p cs else [])

/-- Regex `[class]*`. -/
def mStar (p : Char → Bool) : Matcher := starStops p

/-- Regex `[class]+`. -/
def mPlus (p : Char → Bool) : Matcher := fun s =>
  match s with
  | [] => []
  | c :: cs => if p c then starStops p cs else []

/-- Regex `[class]` (single character). -/
def mOne (p : Char → Bool) : Matcher := fun s =>
  match s with
  | [] => []
  | c :: cs => if p c then [cs] else []

/-- A matcher is well behaved when every match consumes a prefix that the
matcher also accepts exactly, and matching is stable under extending the
input on the right. -/
structure GoodMatcher (m : Matcher) : Prop where
  cut : ∀ s r, r ∈ m s → ∃ c, s = c ++ r ∧ [] ∈ m c
  ext : ∀ s r t, r ∈ m s → r ++ t ∈ m (s ++ t)

theorem good_mEps : GoodMatcher mEps := by
  constructor
  · intro s r hr
    simp only [mEps, List.mem_singleton] at hr
    exact ⟨[], by simp [hr], by simp [mEps]⟩
  · intro s r t hr
    simp only [mEps, List.mem_singleton] at hr ⊢
    rw [hr]

theorem good_mLit (l : List Char) : GoodMatcher (mLit l) := by
  constructor
  · intro s r hr
    unfold mLit at hr
    split_ifs at hr with hp
    · simp only [List.mem_singleton] at hr
      obtain ⟨t, rfl⟩ := List.isPrefixOf_iff_prefix.mp hp
      refine ⟨l, ?_, ?_⟩
      · rw [hr, List.drop_left]
      · unfold mLit
        rw [if_pos (List.isPrefixOf_iff_prefix.mpr List.prefix_rfl)]
        simp
    · simp at hr
  · intro s r t hr
    unfold mLit at hr ⊢
    split_ifs at hr with hp
    · simp only [List.mem_singleton] at hr
      obtain ⟨u, rfl⟩ := List.isPrefixOf_iff_prefix.mp hp
      rw [if_pos (List.isPrefixOf_iff_prefix.mpr ⟨u ++ t, by simp⟩)]
      simp only [List.mem_singleton]
      rw [hr, List.drop_left, List.append_assoc, List.drop_left]
    · simp at hr

theorem good_mSeq {a b : Matcher} (ha : GoodMatcher a) (hb : GoodMatcher b) :
    GoodMatcher (mSeq a b) := by
  constructor
  · intro s r hr
    simp only [mSeq, List.mem_bind] at hr
    obtain ⟨r1, hr1, hr2⟩ := hr
    obtain ⟨c1, rfl, hc1⟩ := ha.cut s r1 hr1
    obtain ⟨c2, hc2eq, hc2⟩ := hb.cut r1 r hr2
    refine ⟨c1 ++ c2, by rw [hc2eq, List.append_assoc], ?_⟩
    simp only [mSeq, List.mem_bind]
    refine ⟨c2, ?_, hc2⟩
    have h := ha.ext c1 [] c2 hc1
    simpa using h
  · intro s r t hr
    simp only [mSeq, List.mem_bind] at hr ⊢
    obtain ⟨r1, hr1, hr2⟩ := hr
    exact ⟨r1 ++ t, ha.ext s r1 t hr1, hb.ext r1 r t hr2⟩

theorem good_mAlt2 {a b : Matcher} (ha : GoodMatcher a) (hb : GoodMatcher b) :
    GoodMatcher (mAlt2 a b) := by
  constructor
  · intro s r hr
    rcases List.mem_append.mp hr with h | h
    · obtain ⟨c, rfl, hc⟩ := ha.cut s r h
      exact ⟨c, rfl, List.mem_append.mpr (Or.inl hc)⟩
    · obtain ⟨c, rfl, hc⟩ := hb.cut s r h
      exact ⟨c, rfl, List.mem_append.mpr (Or.inr hc)⟩
  · intro s r t hr
    rcases List.mem_append.mp hr with h | h
    · exact List.mem_append.mpr (Or.inl (ha.ext s r t h))
    · exact List.mem_append.mpr (Or.inr (hb.ext s r t h))

theorem good_mOpt {a : Matcher} (ha : GoodMatcher a) :
    GoodMatcher (mOpt a) := good_mAlt2 good_mEps ha

theorem starStops_decomp (p : Char → Bool) (s r : List Char)
    (h : r ∈ starStops p s) : ∃ c, s = c ++ r ∧ c.all p := by
  induction s with
  | nil =>
      simp only [starStops, List.mem_singleton] at h
      exact ⟨[], by simp [h], by simp⟩
  | cons c cs ih =>
      rw [starStops] at h
      rcases List.mem_cons.mp h with h0 | h0
      · exact ⟨[], by simp [h0], by simp⟩
      · split_ifs at h0 with hp
        · obtain ⟨d, hd, hall⟩ := ih h0
          exact ⟨c :: d, by simp [hd], by simp [hp, hall]⟩
        · simp at h0

theorem all_mem_starStops (p : Char → Bool) (c : List Char) (h : c.all p) :
    [] ∈ starStops p c := by
  induction c with
  | nil => simp [starStops]
  | cons d t ih =>
      simp only [List.all_cons, Bool.and_eq_true] at h
      rw [starStops, if_pos h.1]
      exact List.mem_cons_of_mem _ (ih h.2)

theorem starStops_ext (p : Char → Bool) (s r t : List Char)
    (h : r ∈ starStops p s) : r ++ t ∈ starStops p (s ++ t) := by
  induction s with
  | nil =>
      simp only [starStops, List.mem_singleton] at h
      subst h
      cases t with
      | nil => simp [starStops]
      | cons c cs =>
          simp only [List.nil_append]
          rw [starStops]
          exact List.mem_cons_self _ _
  | cons c cs ih =>
      rw [starStops] at h
      rcases List.mem_cons.mp h with h0 | h0
      · subst h0
        rw [List.cons_append, starStops]
        exact List.mem_cons_self _ _
      · split_ifs at h0 with hp
        · rw [List.cons_append, starStops, if_pos hp]
          exact List.mem_cons_of_mem _ (ih h0)
        · simp at h0

theorem good_mStar (p : Char → Bool) : GoodMatcher (mStar p) := by
  constructor
  · intro s r hr
    obtain ⟨c, rfl, hall⟩ := starStops_decomp p s r hr
    exact ⟨c, rfl, all_mem_starStops p c hall⟩
  · intro s r t hr
    exact starStops_ext p s r t hr

theorem good_mPlus (p : Char → Bool) : GoodMatcher (mPlus p) := by
  constructor
  · intro s r hr
    cases s with
    | nil => simp [mPlus] at hr
    | cons c cs =>
        rw [mPlus] at hr
        split_ifs at hr with hp
        · obtain ⟨d, rfl, hall⟩ := starStops_decomp p cs r hr
          refine ⟨c :: d, by simp, ?_⟩
          rw [mPlus, if_pos hp]
          exact all_mem_starStops p d hall
        · simp at hr
  · intro s r t hr
    cases s with
    | nil => simp [mPlus] at hr
    | cons c cs =>
        rw [mPlus] at hr
        split_ifs at hr with hp
        · rw [List.cons_append, mPlus, if_pos hp]
          exact starStops_ext p cs r t hr
        · simp at hr

theorem good_mOne (p : Char → Bool) : GoodMatcher (mOne p) := by
  constructor
  · intro s r hr
    cases s with
    | nil => simp [mOne] at hr
    | cons c cs =>
        rw [mOne] at hr
        split_ifs at hr with hp
        · simp only [List.mem_singleton] at hr
          refine ⟨[c], by simp [hr], ?_⟩
          rw [mOne, if_pos hp]
          simp
        · simp at hr
  · intro s r t hr
    cases s with
    | nil => simp [mOne] at hr
    | cons c cs =>
        rw [mOne] at hr
        split_ifs at hr with hp
        · simp only [List.mem_singleton] at hr
          rw [List.cons_append, mOne, if_pos hp]
          simp [hr]
        · simp at hr

/-- Python regex \s character class (ASCII whitespace). -/
def isWsChar (c : Char) : Bool :=
  c == ' ' || c == '\t' || c == '\n' || c == '\r' || c == '\x0b' ||
    c == '\x0c'

/-- Leading decoration class of the combined header pattern. -/
def isDecoChar (c : Char) : Bool :=
  c == '-' || c == '–' || c == '—' || c == '*' || c == '=' || c == '_' ||
  c == '<' || c == '>' || c == '►' || c == '▶' || c == '→' || c == '•' ||
  c == '[' || c == '(' || c == '#'

/-- Trailing decoration class of the combined header pattern. -/
def isTrailChar (c : Char) : Bool :=
  c == ':' || c == '-' || c == '–' || c == '—' || c == '.' || c == '_' ||
  c == ']' || c == ')' || c == '*' || c == '=' || c == '<' || c == '>' ||
  c == '►' || c == '▶' || c == '→' || c == '•' || c == '#'

/-- Punctuation allowed after a numeric heading number. -/
def isNumPunct (c : Char) : Bool := c == '.' || c == ')' || c == '-'

/-- Roman-numeral characters of the numbering alternative (IGNORECASE). -/
def isIvxChar (c : Char) : Bool :=
  c == 'i' || c == 'v' || c == 'x' || c == 'I' || c == 'V' || c == 'X'

/-- Regex \s*. -/
def ws : Matcher := mStar isWsChar

/-- Literal word. -/
def strLit (s : String) : Matcher := mLit s.data

/-- The eight experience header patterns of SECTION_PATTERNS. -/
def expKw : Matcher :=
  mAlt2 (mSeq (mOpt (mSeq (strLit "work") ws)) (strLit "experience"))
  (mAlt2 (mSeq (strLit "employment") (mOpt (mSeq ws (strLit "history"))))
  (mAlt2 (mSeq (strLit "professional")
    (mSeq ws (mAlt2 (strLit "experience")
      (mAlt2 (strLit "background") (strLit "history")))))
  (mAlt2 (mSeq (strLit "work") (mSeq ws (strLit "history")))
  (mAlt2 (mSeq (strLit "career")
    (mSeq ws (mAlt2 (strLit "history") (strLit "summary"))))
  (mAlt2 (mSeq (strLit "previous")
    (mSeq ws (mAlt2 (strLit "employment")
      (mSeq (strLit "position") (mOpt (strLit "s"))))))
  (mAlt2 (mSeq (strLit "positions") (mSeq ws (strLit "held")))
    (mSeq (strLit "recent") (mSeq ws (strLit "work")))))))))

/-- Optional leading decoration group `(?:[deco]+\s*)?`. -/
def decoOpen : Matcher := mOpt (mSeq (mPlus isDecoChar) ws)

/-- Optional numbering group: digits with optional punctuation, or Roman
numerals followed by a dot. -/
def numbering : Matcher :=
  mOpt (mAlt2 (mSeq (mPlus Char.isDigit) (mOpt (mOne isNumPunct)))
    (mSeq (mPlus isIvxChar) (strLit ".")))

/-- Everything the combined pattern allows before the section keyword:
whitespace, optional decoration, optional numbering, whitespace. -/
def headerPre : Matcher := mSeq ws (mSeq decoOpen (mSeq numbering ws))

/-- Everything allowed after the keyword before the terminator: optional
whitespace-and-trailing-decoration, then whitespace. -/
def trailDeco : Matcher := mSeq (mOpt (mSeq ws (mStar isTrailChar))) ws

/-- The combined header pattern without its anchor and terminator. -/
def headerEnv (kw : Matcher) : Matcher :=
  mSeq headerPre (mSeq kw trailDeco)

/-- The terminator `(?:$|\n|[|,])`: end of text, a newline, a pipe, or a
comma must follow the decorated keyword. -/
def endOk : List Char → Bool
  | [] => true
  | c :: _ => c == '\n' || c == '|' || c == ','

/-- One anchored search attempt starting at a line start. -/
def matchHeaderFrom (kw : Matcher) (s : List Char) : Bool :=
  (headerEnv kw s).any endOk

/-- The suffixes following each newline character. -/
def lineStartSuffixes : List Char → List (List Char)
  | [] => []
  | c :: cs => (if c = '\n' then [cs] else []) ++ lineStartSuffixes cs

/-- All positions the anchor `(?:^|\n)` can match at: the start of the
text and just after every newline. -/
def searchStarts (s : List Char) : List (List Char) := s :: lineStartSuffixes s

/-- re.search of the combined header pattern over the lowered and stripped
block text. -/
def headerHit (kw : Matcher) (text : String) : Bool :=
  (searchStarts (pyStrip (pyLower text)).data).any (matchHeaderFrom kw)

/-- A block is recorded as a section header by _find_section_boundaries
only when some pattern matches AND the lowered stripped text is shorter
than 80 characters (the guard inside the pattern loop). -/
def recordedHeader (kw : Matcher) (text : String) : Bool :=
  headerHit kw text && decide ((pyStrip (pyLower text)).length < 80)

theorem good_ws : GoodMatcher ws := good_mStar isWsChar

theorem good_strLit (s : String) : GoodMatcher (strLit s) := good_mLit s.data

theorem good_decoOpen : GoodMatcher decoOpen :=
  good_mOpt (good_mSeq (good_mPlus _) good_ws)

theorem good_numbering : GoodMatcher numbering :=
  good_mOpt (good_mAlt2 (good_mSeq (good_mPlus _) (good_mOpt (good_mOne _)))
    (good_mSeq (good_mPlus _) (good_strLit ".")))

theorem good_headerPre : GoodMatcher headerPre :=
  good_mSeq good_ws
    (good_mSeq good_decoOpen (good_mSeq good_numbering good_ws))

theorem good_trailDeco : GoodMatcher trailDeco :=
  good_mSeq (good_mOpt (good_mSeq good_ws (good_mStar _))) good_ws

theorem good_expKw : GoodMatcher expKw :=
  good_mAlt2 (good_mSeq (good_mOpt (good_mSeq (good_strLit _) good_ws))
    (good_strLit _))
  (good_mAlt2 (good_mSeq (good_strLit _)
    (good_mOpt (good_mSeq good_ws (good_strLit _))))
  (good_mAlt2 (good_mSeq (good_strLit _) (good_mSeq good_ws
    (good_mAlt2 (good_strLit _) (good_mAlt2 (good_strLit _)
      (good_strLit _)))))
  (good_mAlt2 (good_mSeq (good_strLit _) (good_mSeq good_ws (good_strLit _)))
  (good_mAlt2 (good_mSeq (good_strLit _) (good_mSeq good_ws
    (good_mAlt2 (good_strLit _) (good_strLit _))))
  (good_mAlt2 (good_mSeq (good_strLit _) (good_mSeq good_ws
    (good_mAlt2 (good_strLit _) (good_mSeq (good_strLit _)
      (good_mOpt (good_strLit _))))))
  (good_mAlt2 (good_mSeq (good_strLit _) (good_mSeq good_ws (good_strLit _)))
    (good_mSeq (good_strLit _) (good_mSeq good_ws (good_strLit _)))))))))

/-- Every hit of the header search decomposes the matched line start as
pre-decoration ++ keyword ++ trailing decoration ++ terminator. -/
theorem headerHit_sound (kw : Matcher) (hkw : GoodMatcher kw) (text : String)
    (h : headerHit kw text = true) :
    ∃ s ∈ searchStarts (pyStrip (pyLower text)).data,
      ∃ pre kwc trail rest, s = pre ++ (kwc ++ (trail ++ rest)) ∧
        [] ∈ headerPre pre ∧ [] ∈ kw kwc ∧ [] ∈ trailDeco trail ∧
        endOk rest = true := by
  rw [headerHit, List.any_eq_true] at h
  obtain ⟨s, hs, hm⟩ := h
  rw [matchHeaderFrom, List.any_eq_true] at hm
  obtain ⟨rest, hrest, hend⟩ := hm
  simp only [headerEnv, mSeq, List.mem_bind] at hrest
  obtain ⟨r1, hr1, r2, hr2, hrest2⟩ := hrest
  obtain ⟨pre, hseq, hpre⟩ := good_headerPre.cut s r1 hr1
  obtain ⟨kwc, hkwceq, hkw2⟩ := hkw.cut r1 r2 hr2
  obtain ⟨trail, htraileq, htr⟩ := good_trailDeco.cut r2 rest hrest2
  refine ⟨s, hs, pre, kwc, trail, rest, ?_, hpre, hkw2, htr, hend⟩
  rw [hseq, hkwceq, htraileq]

/-- C9: blocks whose lowered stripped text has 80 or more characters are
never recorded as a header of any kind; the prose sentence about years of
experience is not matched by the experience header pattern at all (and so
not recorded); and every match anchors at a line start and consists of
decoration/numbering, the keyword, trailing decoration, and an
end-of-line/pipe/comma terminator. -/
theorem C9_header_guards :
    (∀ (kw : Matcher) (text : String),
      80 ≤ (pyStrip (pyLower text)).length → recordedHeader kw text = false)
    ∧
    headerHit expKw
      "I have 5 years of experience in software development." = false ∧
    recordedHeader expKw
      "I have 5 years of experience in software development." = false ∧
    (∀ (kw : Matcher), GoodMatcher kw → ∀ (text : String),
      headerHit kw text = true →
      ∃ s ∈ searchStarts (pyStrip (pyLower text)).data,
        ∃ pre kwc trail rest, s = pre ++ (kwc ++ (trail ++ rest)) ∧
          [] ∈ headerPre pre ∧ [] ∈ kw kwc ∧ [] ∈ trailDeco trail ∧
          endOk rest = true) := by
  refine ⟨?_, ?_, ?_, ?_⟩
  · intro kw text hlen
    have hnot : ¬ ((pyStrip (pyLower text)).length < 80) := by omega
    rw [recordedHeader]
    simp [hnot]
  · decide
  · decide
  · intro kw hkw text h
    exact headerHit_sound kw hkw text h

/-- An 80-character candidate block. -/
def longBlock : String := ⟨List.replicate 80 'a'⟩

theorem C9_header_guards_witness :
    (80 ≤ (pyStrip (pyLower longBlock)).length ∧
      recordedHeader expKw longBlock = false) ∧
    (headerHit expKw "experience:" = true ∧
      ∃ s ∈ searchStarts (pyStrip (pyLower "experience:")).data,
        ∃ pre kwc trail rest, s = pre ++ (kwc ++ (trail ++ rest)) ∧
          [] ∈ headerPre pre ∧ [] ∈ expKw kwc ∧ [] ∈ trailDeco trail ∧
          endOk rest = true) := by
  have hlen : 80 ≤ (pyStrip (pyLower longBlock)).length := by decide
  have hhit : headerHit expKw "experience:" = true := by decide
  exact ⟨⟨hlen, C9_header_guards.1 expKw longBlock hlen⟩,
    ⟨hhit, C9_header_guards.2.2.2 expKw good_expKw "experience:" hhit⟩⟩

end SmartResume
